import Mathlib

/-!
Shallow embedding of the WebRTC signaling server core (`src/api/index.ts`):
the room registry (`rooms : Map<string, RoomData>`), the identifier
exchange engine (`exchangePeerIds`), and the lifecycle handlers
(`joinRoom`, `registerPeerId`, `handleDisconnect`, `handleMediaToggle`).

JavaScript `Map`s are embedded as association lists without duplicate
keys (insertion order preserved, as JS guarantees); JavaScript `Set`s as
duplicate-free lists in insertion order.  Every outbound `emit` is
recorded as a `Msg` naming its single receiver; a broadcast
(`socket.to(roomId).emit`) is expanded into one `Msg` per receiver, in
room order, excluding the sender, exactly as socket.io delivers it.
-/

-- ============ MAP / SET PRIMITIVES (JS Map and Set semantics) ============

/-- Lookup in an association list: `m.get(k)`. -/
def mapGet {α : Type} (m : List (String × α)) (k : String) : Option α :=
  match m with
  | [] => none
  | (k2, v) :: rest => if k2 = k then some v else mapGet rest k

/-- Update/insert in an association list: `m.set(k, v)`.  An existing key is
updated in place (JS Maps keep the original insertion position); a new key
is appended at the end. -/
def mapSet {α : Type} (m : List (String × α)) (k : String) (v : α) : List (String × α) :=
  match m with
  | [] => [(k, v)]
  | (k2, v2) :: rest => if k2 = k then (k, v) :: rest else (k2, v2) :: mapSet rest k v

/-- Deletion from an association list: `m.delete(k)`. -/
def mapDelete {α : Type} (m : List (String × α)) (k : String) : List (String × α) :=
  match m with
  | [] => []
  | (k2, v2) :: rest => if k2 = k then mapDelete rest k else (k2, v2) :: mapDelete rest k

/-- Membership test on a set: `s.has(x)`. -/
def setHas (s : List String) (x : String) : Bool :=
  match s with
  | [] => false
  | y :: rest => if y = x then true else setHas rest x

/-- Insertion into a set: `s.add(x)` (no effect when already present;
new elements appended at the end, as JS Set iteration order dictates). -/
def setAdd (s : List String) (x : String) : List String :=
  if setHas s x then s else s ++ [x]

/-- Removal of every occurrence of `x`: `s.delete(x)` on a duplicate-free
list, and also `array.filter(id => id !== x)`. -/
def removeAll (s : List String) (x : String) : List String :=
  match s with
  | [] => []
  | y :: rest => if y = x then removeAll rest x else y :: removeAll rest x

/-- `m.forEach(set => set.delete(x))`: purge `x` from every set stored in
the map, keeping the keys. -/
def purgeAll (m : List (String × List String)) (x : String) : List (String × List String) :=
  match m with
  | [] => []
  | (k, s) :: rest => (k, removeAll s x) :: purgeAll rest x

-- ============ DATA MODEL ============

/-- `RoomData` from the source: member set `users`, announced identifiers
`peerIds : socketId -> peerId`, and the dedup bookkeeping
`peerIdsSent : socketId -> Set of other socketIds`. -/
structure RoomData where
  users : List String
  peerIds : List (String × String)
  peerIdsSent : List (String × List String)
  deriving Repr, DecidableEq

/-- The registry `rooms : Map<string, RoomData>`. -/
def Rooms : Type := List (String × RoomData)

/-- Every outbound effect of the core, one per receiving connection. -/
inductive Msg where
  /-- `socket.emit("remotePeerId", payload)` delivered to `receiver`; `sender`
  is the member whose announced identifier `payload` is. -/
  | remotePeerId (sender receiver payload : String)
  /-- `emit("userCount", n)` delivered to `receiver`. -/
  | userCount (receiver : String) (n : Nat)
  /-- `emit("roomFull", {message: reason})` delivered to `receiver`. -/
  | roomFull (receiver reason : String)
  /-- `socket.disconnect(true)`: the server forcibly closes `receiver`. -/
  | forceDisconnect (receiver : String)
  /-- `emit("userDisconnected", departed)` delivered to `receiver`. -/
  | userDisconnected (receiver departed : String)
  /-- `emit("mediaToggle", {type, enabled, peerId})` delivered to `receiver`. -/
  | mediaToggle (receiver : String) (isAudio enabled : Bool) (peerId : String)
  deriving Repr, DecidableEq

/-- `MAX_USERS_PER_ROOM`. -/
def MAX_USERS_PER_ROOM : Nat := 2

/-- `DEFAULT_ROOM`. -/
def DEFAULT_ROOM : String := "main-room"

/-- The payload of the `roomFull` event. -/
def ROOM_FULL_REASON : String := "Room is full. Only 2 users allowed."

-- ============ BROADCAST HELPERS ============

/-- One `userCount` message per receiver. -/
def userCountMsgs (receivers : List String) (n : Nat) : List Msg :=
  match receivers with
  | [] => []
  | r :: rest => Msg.userCount r n :: userCountMsgs rest n

/-- One `userDisconnected` message per receiver. -/
def userDiscMsgs (receivers : List String) (departed : String) : List Msg :=
  match receivers with
  | [] => []
  | r :: rest => Msg.userDisconnected r departed :: userDiscMsgs rest departed

/-- One `mediaToggle` message per receiver. -/
def mediaMsgs (receivers : List String) (isAudio enabled : Bool) (peerId : String) : List Msg :=
  match receivers with
  | [] => []
  | r :: rest => Msg.mediaToggle r isAudio enabled peerId :: mediaMsgs rest isAudio enabled peerId

-- ============ ROOM MANAGEMENT ============

/-- `getOrCreateRoom`: return the registry (with the room created when
absent) together with the room's data. -/
def getOrCreateRoom (st : Rooms) (roomId : String) : Rooms × RoomData :=
  match mapGet st roomId with
  | some room => (st, room)
  | none =>
    let room : RoomData := { users := [], peerIds := [], peerIdsSent := [] }
    (mapSet st roomId room, room)

/-- `deleteRoomIfEmpty`. -/
def deleteRoomIfEmpty (st : Rooms) (roomId : String) : Rooms :=
  match mapGet st roomId with
  | none => st
  | some room => if room.users.length = 0 then mapDelete st roomId else st

/-- `getRoomUserCount` (the spec's `memberCount`): 0 for a missing room. -/
def getRoomUserCount (st : Rooms) (roomId : String) : Nat :=
  match mapGet st roomId with
  | none => 0
  | some room => room.users.length

-- ============ PEER ID EXCHANGE ============

/-- The body of the `otherUsers.forEach` loop in `exchangePeerIds`, for one
other member `o`.  Both dedup flags are computed from the state as it
stands when the iteration begins (`mySentSet` is read in the source before
the first send mutates it); the two conditional sends then update
`peerIdsSent` exactly as the source does — note that BOTH marks go into
the announcer's own set (`peerIdsSent.get(mySocketId).add(otherSocketId)`),
while the first guard reads the OTHER member's set. -/
def exchangeStep (room : RoomData) (sid myPeerId o : String) : RoomData × List Msg :=
  match mapGet room.peerIds o with
  | none => (room, [])
  | some otherPeerId =>
    let alreadySentToOther : Bool :=
      match mapGet room.peerIdsSent o with
      | some s => setHas s sid
      | none => false
    let mySent := mapGet room.peerIdsSent sid
    let alreadyReceivedFromOther : Bool :=
      match mySent with
      | some s => setHas s o
      | none => false
    let stepA : RoomData × List Msg :=
      if alreadySentToOther then (room, [])
      else
        let sent1 := if (mapGet room.peerIdsSent sid).isSome then room.peerIdsSent
          else mapSet room.peerIdsSent sid []
        let sent2 := mapSet sent1 sid (setAdd ((mapGet sent1 sid).getD []) o)
        ({ room with peerIdsSent := sent2 }, [Msg.remotePeerId sid o myPeerId])
    let roomA := stepA.1
    if alreadyReceivedFromOther then stepA
    else
      let sentB0 :=
        match mySent with
        | none => mapSet roomA.peerIdsSent sid []
        | some _ => roomA.peerIdsSent
      let sentB := mapSet sentB0 sid (setAdd ((mapGet sentB0 sid).getD []) o)
      ({ roomA with peerIdsSent := sentB }, stepA.2 ++ [Msg.remotePeerId o sid otherPeerId])

/-- `otherUsers.forEach(...)`: fold `exchangeStep` over the other members
in room order, threading the room state and concatenating the emits. -/
def exchangeLoop (room : RoomData) (sid myPeerId : String) : List String → RoomData × List Msg
  | [] => (room, [])
  | o :: rest =>
    let step := exchangeStep room sid myPeerId o
    let next := exchangeLoop step.1 sid myPeerId rest
    (next.1, step.2 ++ next.2)

/-- `exchangePeerIds(socket, roomId, myPeerId)`.  Missing room: pure no-op.
Otherwise the announcer's sent-set is initialised if absent, the other
members are computed, and the loop runs (an empty `otherUsers` returns
after the initialisation only). -/
def exchangePeerIds (st : Rooms) (sid roomId myPeerId : String) : Rooms × List Msg :=
  match mapGet st roomId with
  | none => (st, [])
  | some room0 =>
    let room1 := if (mapGet room0.peerIdsSent sid).isSome then room0
      else { room0 with peerIdsSent := mapSet room0.peerIdsSent sid [] }
    let otherUsers := removeAll room1.users sid
    match otherUsers with
    | [] => (mapSet st roomId room1, [])
    | o :: rest =>
      let result := exchangeLoop room1 sid myPeerId (o :: rest)
      (mapSet st roomId result.1, result.2)

-- ============ JOIN ROOM ============

/-- `joinRoom(socket, roomId)`: create the room when absent; reject when
the member count already reached `MAX_USERS_PER_ROOM` (emitting `roomFull`
and forcibly disconnecting the caller, with no registry mutation);
otherwise add the member and emit the updated `userCount` to the other
members and then to the caller.  The `Bool` is the source's return value. -/
def joinRoom (st : Rooms) (sid roomId : String) : Rooms × Bool × List Msg :=
  let created := getOrCreateRoom st roomId
  let st1 := created.1
  let room := created.2
  if MAX_USERS_PER_ROOM ≤ room.users.length then
    (st1, false, [Msg.roomFull sid ROOM_FULL_REASON, Msg.forceDisconnect sid])
  else
    let users2 := setAdd room.users sid
    let st2 := mapSet st1 roomId { room with users := users2 }
    (st2, true, userCountMsgs (removeAll users2 sid) users2.length
      ++ [Msg.userCount sid users2.length])

-- ============ REGISTER PEER ID ============

/-- `registerPeerId(socket, roomId, peerId)`: missing room is a logged
no-op; otherwise record the identifier (overwriting any prior value) and
run the exchange. -/
def registerPeerId (st : Rooms) (sid roomId peerId : String) : Rooms × List Msg :=
  match mapGet st roomId with
  | none => (st, [])
  | some room =>
    let st1 := mapSet st roomId { room with peerIds := mapSet room.peerIds sid peerId }
    exchangePeerIds st1 sid roomId peerId

-- ============ HANDLE DISCONNECT ============

/-- `handleDisconnect(socket, roomId)`: missing room is a no-op; otherwise
remove the member from `users`, `peerIds` and `peerIdsSent`, purge its id
from every other member's sent-set, notify the remaining members
(`userDisconnected` then `userCount`), and delete the room if empty. -/
def handleDisconnect (st : Rooms) (sid roomId : String) : Rooms × List Msg :=
  match mapGet st roomId with
  | none => (st, [])
  | some room =>
    let users2 := removeAll room.users sid
    let room2 : RoomData :=
      { users := users2
        peerIds := mapDelete room.peerIds sid
        peerIdsSent := purgeAll (mapDelete room.peerIdsSent sid) sid }
    let st1 := mapSet st roomId room2
    let st2 := deleteRoomIfEmpty st1 roomId
    (st2, userDiscMsgs users2 sid ++ userCountMsgs users2 users2.length)

-- ============ MEDIA TOGGLE ============

/-- `handleMediaToggle`: stateless pass-through of the toggle to the other
members of the sender's room (socket.io room membership mirrors `users`). -/
def handleMediaToggle (st : Rooms) (sid roomId : String) (isAudio enabled : Bool)
    (peerId : String) : List Msg :=
  match mapGet st roomId with
  | none => []
  | some room => mediaMsgs (removeAll room.users sid) isAudio enabled peerId

-- ============ OPERATION TRACES ============

/-- One registry operation, in the vocabulary of the spec: `join` is the
transport connect reaching `joinRoom`, `announce` is the `registerPeerId`
event, `leave` is the disconnect reaching `handleDisconnect`. -/
inductive Op where
  | join (sid roomId : String)
  | announce (sid roomId peerId : String)
  | leave (sid roomId : String)
  deriving Repr, DecidableEq

/-- Apply one operation to the registry. -/
def runOp (st : Rooms) : Op → Rooms × List Msg
  | Op.join sid roomId =>
    let r := joinRoom st sid roomId
    (r.1, r.2.2)
  | Op.announce sid roomId peerId => registerPeerId st sid roomId peerId
  | Op.leave sid roomId => handleDisconnect st sid roomId

/-- Apply a sequence of operations, concatenating all emitted messages. -/
def runOps (st : Rooms) : List Op → Rooms × List Msg
  | [] => (st, [])
  | op :: rest =>
    let step := runOp st op
    let next := runOps step.1 rest
    (next.1, step.2 ++ next.2)

/-- The payloads of the `remotePeerId` messages delivered for the ordered
direction `sender → receiver`, in delivery order. -/
def deliveries (ms : List Msg) (sender receiver : String) : List String :=
  match ms with
  | [] => []
  | Msg.remotePeerId s r p :: rest =>
    if s = sender then
      if r = receiver then p :: deliveries rest sender receiver
      else deliveries rest sender receiver
    else deliveries rest sender receiver
  | _ :: rest => deliveries rest sender receiver

-- ============ SERVER-LEVEL MODEL (io.on("connection") dispatch) ============

/-- A transport-level event as the socket.io server delivers it.  No event
carries a room key: the room is always chosen by the server. -/
inductive SEvent where
  | connect (sid : String)
  | register (sid peerId : String)
  | media (sid : String) (isAudio enabled : Bool) (peerId : String)
  | disconnect (sid : String)
  deriving Repr, DecidableEq

/-- Server state: the registry plus the set of connections that were
accepted by `joinRoom` (only those have the `registerPeerId`,
`mediaToggle` and `disconnect` handlers registered — a rejected connection
returns before any handler is installed). -/
structure ServerState where
  rooms : Rooms
  accepted : List String

/-- The state at process start: empty registry, no connections. -/
def serverStart : ServerState := { rooms := [], accepted := [] }

/-- The `io.on("connection")` dispatch: every connection attempts to join
`DEFAULT_ROOM`; handlers for the other events run only for connections
whose join was accepted, always against `DEFAULT_ROOM`. -/
def serverStep (st : ServerState) : SEvent → ServerState × List Msg
  | SEvent.connect sid =>
    let r := joinRoom st.rooms sid DEFAULT_ROOM
    ({ rooms := r.1, accepted := if r.2.1 then setAdd st.accepted sid else st.accepted }, r.2.2)
  | SEvent.register sid peerId =>
    if setHas st.accepted sid then
      let r := registerPeerId st.rooms sid DEFAULT_ROOM peerId
      ({ st with rooms := r.1 }, r.2)
    else (st, [])
  | SEvent.media sid isAudio enabled peerId =>
    if setHas st.accepted sid then
      (st, handleMediaToggle st.rooms sid DEFAULT_ROOM isAudio enabled peerId)
    else (st, [])
  | SEvent.disconnect sid =>
    if setHas st.accepted sid then
      let r := handleDisconnect st.rooms sid DEFAULT_ROOM
      ({ rooms := r.1, accepted := removeAll st.accepted sid }, r.2)
    else (st, [])

/-- Run a sequence of transport events from a server state. -/
def runServer (st : ServerState) : List SEvent → ServerState × List Msg
  | [] => (st, [])
  | ev :: rest =>
    let step := serverStep st ev
    let next := runServer step.1 rest
    (next.1, step.2 ++ next.2)

-- ============ INVARIANTS ============

/-- The registry invariant behind claims C4 and C6: every registered room
has at most `2` members and is non-empty. -/
def RegistryInv (st : Rooms) : Prop :=
  ∀ r rd, mapGet st r = some rd → rd.users.length ≤ 2 ∧ rd.users ≠ []

/-- The server invariant behind claim C10: the registry satisfies
`RegistryInv` and holds no key other than `DEFAULT_ROOM`. -/
def ServerInv (st : ServerState) : Prop :=
  RegistryInv st.rooms ∧ ∀ r rd, mapGet st.rooms r = some rd → r = DEFAULT_ROOM

-- ============ CONCRETE IDENTIFIERS FOR TRACES ============

/-- A concrete connection identifier. -/
def sidA : String := "A"

/-- A concrete connection identifier. -/
def sidB : String := "B"

/-- A concrete connection identifier. -/
def sidC : String := "C"

/-- A concrete announced peer identifier. -/
def pidA : String := "pA"

/-- A concrete announced peer identifier. -/
def pidB : String := "pB"

/-- A concrete room key. -/
def roomR : String := "r"

/-- The registry after `A` and `B` joined room `r` and announced `pA`
then `pB`: the completed-exchange state used by the C7 witness. -/
def stExchanged : Rooms :=
  (runOps [] [Op.join sidA roomR, Op.join sidB roomR,
    Op.announce sidA roomR pidA, Op.announce sidB roomR pidB]).1

/-- A registry holding one room `r` whose two member slots are taken. -/
def stFull : Rooms := [(roomR, RoomData.mk [sidA, sidB] [] [])]

/-- A registry holding one room `r` with the single member `A`. -/
def stSolo : Rooms := [(roomR, RoomData.mk [sidA] [] [])]

-- ============ PRIMITIVE LEMMAS ============

theorem setHas_iff (s : List String) (x : String) : setHas s x = true ↔ x ∈ s := by
  induction s with
  | nil => simp [setHas]
  | cons y rest ih =>
    by_cases hy : y = x
    · subst hy; simp [setHas]
    · simp [setHas, hy, ih, Ne.symm hy]

theorem setAdd_length (s : List String) (x : String) :
    (setAdd s x).length ≤ s.length + 1 := by
  unfold setAdd
  split
  · omega
  · simp

theorem setAdd_ne_nil (s : List String) (x : String) : setAdd s x ≠ [] := by
  unfold setAdd
  split
  · rename_i h
    intro hnil
    rw [hnil] at h
    simp [setHas] at h
  · simp

theorem removeAll_length_le (s : List String) (x : String) :
    (removeAll s x).length ≤ s.length := by
  induction s with
  | nil => simp [removeAll]
  | cons y rest ih =>
    unfold removeAll
    split
    · simp; omega
    · simp; omega

theorem not_mem_removeAll (s : List String) (x : String) : x ∉ removeAll s x := by
  induction s with
  | nil => simp [removeAll]
  | cons y rest ih =>
    unfold removeAll
    split
    · exact ih
    · intro hmem
      rcases List.mem_cons.mp hmem with h | h
      · subst h; simp_all
      · exact ih h

theorem removeAll_of_not_mem (s : List String) (x : String) (h : x ∉ s) :
    removeAll s x = s := by
  induction s with
  | nil => rfl
  | cons y rest ih =>
    unfold removeAll
    have hy : y ≠ x := by
      intro he; exact h (he ▸ List.mem_cons_self y rest)
    rw [if_neg hy, ih (fun hm => h (List.mem_cons_of_mem y hm))]

theorem mapGet_mapSet {α : Type} (m : List (String × α)) (k k2 : String) (v : α) :
    mapGet (mapSet m k v) k2 = if k = k2 then some v else mapGet m k2 := by
  induction m with
  | nil => simp [mapSet, mapGet]
  | cons p rest ih =>
    obtain ⟨k3, v3⟩ := p
    by_cases h3 : k3 = k
    · subst h3
      by_cases h4 : k3 = k2 <;> simp [mapSet, mapGet, h4]
    · by_cases h4 : k3 = k2
      · subst h4
        have hk : ¬ (k = k3) := fun he => h3 he.symm
        simp [mapSet, mapGet, h3, hk]
      · simp [mapSet, mapGet, h3, h4, ih]

theorem mapGet_mapDelete {α : Type} (m : List (String × α)) (k k2 : String) :
    mapGet (mapDelete m k) k2 = if k = k2 then none else mapGet m k2 := by
  induction m with
  | nil => simp [mapDelete, mapGet]
  | cons p rest ih =>
    obtain ⟨k3, v3⟩ := p
    by_cases h3 : k3 = k
    · subst h3
      by_cases h4 : k3 = k2
      · subst h4; simp [mapDelete, mapGet, ih]
      · simp [mapDelete, mapGet, h4, ih]
    · by_cases h4 : k3 = k2
      · subst h4
        have hk : ¬ (k = k3) := fun he => h3 he.symm
        simp [mapDelete, mapGet, h3, hk]
      · simp [mapDelete, mapGet, h3, h4, ih]

theorem mapGet_purgeAll (m : List (String × List String)) (x k : String) :
    mapGet (purgeAll m x) k = (mapGet m k).map (fun s => removeAll s x) := by
  induction m with
  | nil => simp [purgeAll, mapGet]
  | cons p rest ih =>
    obtain ⟨k3, s3⟩ := p
    by_cases h3 : k3 = k
    · subst h3; simp [purgeAll, mapGet]
    · simp [purgeAll, mapGet, h3, ih]

theorem mapDelete_of_get_none {α : Type} (m : List (String × α)) (k : String)
    (h : mapGet m k = none) : mapDelete m k = m := by
  induction m with
  | nil => rfl
  | cons p rest ih =>
    obtain ⟨k3, v3⟩ := p
    unfold mapGet at h
    by_cases h3 : k3 = k
    · rw [if_pos h3] at h; exact absurd h (by simp)
    · rw [if_neg h3] at h
      unfold mapDelete
      rw [if_neg h3, ih h]

theorem mapSet_of_get_some {α : Type} (m : List (String × α)) (k : String) (v : α)
    (h : mapGet m k = some v) : mapSet m k v = m := by
  induction m with
  | nil => simp [mapGet] at h
  | cons p rest ih =>
    obtain ⟨k3, v3⟩ := p
    unfold mapGet at h
    by_cases h3 : k3 = k
    · rw [if_pos h3] at h
      unfold mapSet
      rw [if_pos h3, h3]
      injection h with h
      rw [h]
    · rw [if_neg h3] at h
      unfold mapSet
      rw [if_neg h3, ih h]

theorem purgeAll_of_not_mem (m : List (String × List String)) (x : String)
    (h : ∀ p ∈ m, x ∉ p.2) : purgeAll m x = m := by
  induction m with
  | nil => rfl
  | cons p rest ih =>
    obtain ⟨k3, s3⟩ := p
    unfold purgeAll
    rw [removeAll_of_not_mem s3 x (h (k3, s3) (List.mem_cons_self _ _)),
      ih (fun q hq => h q (List.mem_cons_of_mem _ hq))]

theorem mapDelete_mapSet {α : Type} (m : List (String × α)) (k : String) (v : α) :
    mapDelete (mapSet m k v) k = mapDelete m k := by
  induction m with
  | nil => simp [mapSet, mapDelete]
  | cons p rest ih =>
    obtain ⟨k3, v3⟩ := p
    by_cases h3 : k3 = k
    · subst h3
      simp [mapSet, mapDelete, ih]
    · simp [mapSet, mapDelete, h3, ih]

theorem mapGet_nil {α : Type} (k : String) : mapGet ([] : List (String × α)) k = none := rfl

-- ============ EXCHANGE ENGINE STRUCTURE LEMMAS ============

theorem exchangeStep_users (room : RoomData) (sid myPeerId o : String) :
    (exchangeStep room sid myPeerId o).1.users = room.users := by
  unfold exchangeStep
  cases mapGet room.peerIds o <;> simp <;> split <;> split <;> simp

theorem exchangeStep_peerIds (room : RoomData) (sid myPeerId o : String) :
    (exchangeStep room sid myPeerId o).1.peerIds = room.peerIds := by
  unfold exchangeStep
  cases mapGet room.peerIds o <;> simp <;> split <;> split <;> simp

theorem exchangeLoop_users (sid myPeerId : String) (l : List String) :
    ∀ room : RoomData, (exchangeLoop room sid myPeerId l).1.users = room.users := by
  induction l with
  | nil => intro room; rfl
  | cons o rest ih =>
    intro room
    unfold exchangeLoop
    rw [ih, exchangeStep_users]

theorem exchangeLoop_peerIds (sid myPeerId : String) (l : List String) :
    ∀ room : RoomData, (exchangeLoop room sid myPeerId l).1.peerIds = room.peerIds := by
  induction l with
  | nil => intro room; rfl
  | cons o rest ih =>
    intro room
    unfold exchangeLoop
    rw [ih, exchangeStep_peerIds]

theorem mapSet_mapSet {α : Type} (m : List (String × α)) (k : String) (v0 v : α) :
    mapSet (mapSet m k v0) k v = mapSet m k v := by
  induction m with
  | nil => simp [mapSet]
  | cons p rest ih =>
    obtain ⟨k3, v3⟩ := p
    by_cases h3 : k3 = k
    · subst h3; simp [mapSet]
    · simp [mapSet, h3, ih]

-- ============ OPERATION SHAPE LEMMAS ============

/-- The room written back by the exchange loop differs from its input only
in the `peerIdsSent` field. -/
theorem exchangeLoop_shape (sid myPeerId : String) (l : List String) (room : RoomData) :
    (exchangeLoop room sid myPeerId l).1
      = { users := room.users, peerIds := room.peerIds,
          peerIdsSent := (exchangeLoop room sid myPeerId l).1.peerIdsSent } := by
  have hu := exchangeLoop_users sid myPeerId l room
  have hp := exchangeLoop_peerIds sid myPeerId l room
  cases hres : (exchangeLoop room sid myPeerId l).1 with
  | mk u p s =>
    rw [hres] at hu hp
    simp only at hu hp
    subst hu
    subst hp
    rfl

theorem exchangePeerIds_none (st : Rooms) (sid roomId myPeerId : String)
    (hg : mapGet st roomId = none) :
    exchangePeerIds st sid roomId myPeerId = (st, []) := by
  unfold exchangePeerIds
  rw [hg]

/-- The registry component of `exchangePeerIds` on an existing room: the
room is written back with its `users` and `peerIds` untouched (only the
`peerIdsSent` bookkeeping may change). -/
theorem exchangePeerIds_shape (st : Rooms) (sid roomId myPeerId : String) (room0 : RoomData)
    (hg : mapGet st roomId = some room0) :
    ∃ sent, (exchangePeerIds st sid roomId myPeerId).1
      = mapSet st roomId { users := room0.users, peerIds := room0.peerIds, peerIdsSent := sent } := by
  unfold exchangePeerIds
  rw [hg]
  simp only
  obtain ⟨sent1, hroom1⟩ : ∃ sent1, (if (mapGet room0.peerIdsSent sid).isSome then room0
      else { room0 with peerIdsSent := mapSet room0.peerIdsSent sid [] })
      = { users := room0.users, peerIds := room0.peerIds, peerIdsSent := sent1 } := by
    split
    · exact ⟨room0.peerIdsSent, rfl⟩
    · exact ⟨mapSet room0.peerIdsSent sid [], rfl⟩
  rw [hroom1]
  split
  · exact ⟨sent1, rfl⟩
  · rename_i o rest hlist
    refine ⟨(exchangeLoop { users := room0.users, peerIds := room0.peerIds, peerIdsSent := sent1 }
      sid myPeerId (o :: rest)).1.peerIdsSent, ?_⟩
    simp only
    congr 1
    exact exchangeLoop_shape sid myPeerId (o :: rest) _

theorem registerPeerId_none (st : Rooms) (sid roomId peerId : String)
    (hg : mapGet st roomId = none) :
    registerPeerId st sid roomId peerId = (st, []) := by
  unfold registerPeerId
  rw [hg]

theorem registerPeerId_some (st : Rooms) (sid roomId peerId : String) (room : RoomData)
    (hg : mapGet st roomId = some room) :
    registerPeerId st sid roomId peerId
      = exchangePeerIds (mapSet st roomId { room with peerIds := mapSet room.peerIds sid peerId })
          sid roomId peerId := by
  unfold registerPeerId
  rw [hg]

theorem joinRoom_none (st : Rooms) (sid roomId : String)
    (hg : mapGet st roomId = none) :
    joinRoom st sid roomId
      = (mapSet st roomId { users := [sid], peerIds := [], peerIdsSent := [] }, true,
          [Msg.userCount sid 1]) := by
  unfold joinRoom getOrCreateRoom
  rw [hg]
  simp [MAX_USERS_PER_ROOM, setAdd, setHas, removeAll, userCountMsgs, mapSet_mapSet]

theorem joinRoom_full (st : Rooms) (sid roomId : String) (room : RoomData)
    (hg : mapGet st roomId = some room) (hfull : MAX_USERS_PER_ROOM ≤ room.users.length) :
    joinRoom st sid roomId
      = (st, false, [Msg.roomFull sid ROOM_FULL_REASON, Msg.forceDisconnect sid]) := by
  unfold joinRoom getOrCreateRoom
  rw [hg]
  simp only [if_pos hfull]

theorem joinRoom_accept (st : Rooms) (sid roomId : String) (room : RoomData)
    (hg : mapGet st roomId = some room) (hlt : room.users.length < MAX_USERS_PER_ROOM) :
    joinRoom st sid roomId
      = (mapSet st roomId { room with users := setAdd room.users sid }, true,
          userCountMsgs (removeAll (setAdd room.users sid) sid) (setAdd room.users sid).length
            ++ [Msg.userCount sid (setAdd room.users sid).length]) := by
  unfold joinRoom getOrCreateRoom
  rw [hg]
  simp only [if_neg (Nat.not_le.mpr hlt)]

theorem handleDisconnect_none (st : Rooms) (sid roomId : String)
    (hg : mapGet st roomId = none) :
    handleDisconnect st sid roomId = (st, []) := by
  unfold handleDisconnect
  rw [hg]

theorem handleDisconnect_some (st : Rooms) (sid roomId : String) (room : RoomData)
    (hg : mapGet st roomId = some room) :
    handleDisconnect st sid roomId
      = ((if (removeAll room.users sid).length = 0 then mapDelete st roomId
            else mapSet st roomId
              { users := removeAll room.users sid
                peerIds := mapDelete room.peerIds sid
                peerIdsSent := purgeAll (mapDelete room.peerIdsSent sid) sid }),
          userDiscMsgs (removeAll room.users sid) sid
            ++ userCountMsgs (removeAll room.users sid) (removeAll room.users sid).length) := by
  unfold handleDisconnect
  rw [hg]
  simp only
  unfold deleteRoomIfEmpty
  rw [mapGet_mapSet, if_pos rfl]
  simp only
  split
  · rw [mapDelete_mapSet]
  · rfl

-- ============ REGISTRY INVARIANT PRESERVATION ============

theorem registryInv_nil : RegistryInv [] := by
  intro r rd h
  simp [mapGet] at h

theorem registryInv_joinRoom (st : Rooms) (sid roomId : String) (h : RegistryInv st) :
    RegistryInv (joinRoom st sid roomId).1 := by
  cases hg : mapGet st roomId with
  | none =>
    rw [joinRoom_none st sid roomId hg]
    intro r rd hget
    simp only [mapGet_mapSet] at hget
    by_cases hr : roomId = r
    · rw [if_pos hr] at hget
      injection hget with hget
      subst hget
      constructor <;> simp
    · rw [if_neg hr] at hget
      exact h r rd hget
  | some room =>
    by_cases hfull : MAX_USERS_PER_ROOM ≤ room.users.length
    · rw [joinRoom_full st sid roomId room hg hfull]
      exact h
    · rw [joinRoom_accept st sid roomId room hg (Nat.not_le.mp hfull)]
      intro r rd hget
      simp only [mapGet_mapSet] at hget
      by_cases hr : roomId = r
      · rw [if_pos hr] at hget
        injection hget with hget
        subst hget
        refine ⟨?_, ?_⟩
        · show (setAdd room.users sid).length ≤ 2
          have h1 := setAdd_length room.users sid
          have h2 : room.users.length < MAX_USERS_PER_ROOM := Nat.not_le.mp hfull
          simp only [MAX_USERS_PER_ROOM] at h2
          omega
        · show setAdd room.users sid ≠ []
          exact setAdd_ne_nil room.users sid
      · rw [if_neg hr] at hget
        exact h r rd hget

theorem registryInv_registerPeerId (st : Rooms) (sid roomId peerId : String)
    (h : RegistryInv st) : RegistryInv (registerPeerId st sid roomId peerId).1 := by
  cases hg : mapGet st roomId with
  | none =>
    rw [registerPeerId_none st sid roomId peerId hg]
    exact h
  | some room =>
    rw [registerPeerId_some st sid roomId peerId room hg]
    have hg1 : mapGet (mapSet st roomId { room with peerIds := mapSet room.peerIds sid peerId })
        roomId = some { room with peerIds := mapSet room.peerIds sid peerId } := by
      rw [mapGet_mapSet, if_pos rfl]
    obtain ⟨sent, hshape⟩ := exchangePeerIds_shape _ sid roomId peerId _ hg1
    rw [hshape, mapSet_mapSet]
    intro r rd hget
    rw [mapGet_mapSet] at hget
    by_cases hr : roomId = r
    · rw [if_pos hr] at hget
      injection hget with hget
      subst hget
      exact h roomId room hg
    · rw [if_neg hr] at hget
      exact h r rd hget

theorem registryInv_handleDisconnect (st : Rooms) (sid roomId : String)
    (h : RegistryInv st) : RegistryInv (handleDisconnect st sid roomId).1 := by
  cases hg : mapGet st roomId with
  | none =>
    rw [handleDisconnect_none st sid roomId hg]
    exact h
  | some room =>
    rw [handleDisconnect_some st sid roomId room hg]
    simp only
    split
    · intro r rd hget
      rw [mapGet_mapDelete] at hget
      by_cases hr : roomId = r
      · rw [if_pos hr] at hget
        cases hget
      · rw [if_neg hr] at hget
        exact h r rd hget
    · rename_i hne
      intro r rd hget
      rw [mapGet_mapSet] at hget
      by_cases hr : roomId = r
      · rw [if_pos hr] at hget
        injection hget with hget
        subst hget
        refine ⟨?_, ?_⟩
        · show (removeAll room.users sid).length ≤ 2
          have h1 := removeAll_length_le room.users sid
          have h2 := (h roomId room hg).1
          omega
        · show removeAll room.users sid ≠ []
          intro hnil
          exact hne (by rw [hnil]; rfl)
      · rw [if_neg hr] at hget
        exact h r rd hget

theorem registryInv_runOp (st : Rooms) (op : Op) (h : RegistryInv st) :
    RegistryInv (runOp st op).1 := by
  cases op with
  | join sid roomId => exact registryInv_joinRoom st sid roomId h
  | announce sid roomId peerId => exact registryInv_registerPeerId st sid roomId peerId h
  | leave sid roomId => exact registryInv_handleDisconnect st sid roomId h

theorem registryInv_runOps (ops : List Op) : ∀ st : Rooms, RegistryInv st →
    RegistryInv (runOps st ops).1 := by
  induction ops with
  | nil => intro st h; exact h
  | cons op rest ih =>
    intro st h
    exact ih (runOp st op).1 (registryInv_runOp st op h)

-- ============ KEY-LOCALITY LEMMAS ============

theorem joinRoom_keys (st : Rooms) (sid roomId r : String) (rd : RoomData)
    (h : mapGet (joinRoom st sid roomId).1 r = some rd) :
    r = roomId ∨ ∃ rd0, mapGet st r = some rd0 := by
  cases hg : mapGet st roomId with
  | none =>
    rw [joinRoom_none st sid roomId hg] at h
    simp only at h
    rw [mapGet_mapSet] at h
    by_cases hr : roomId = r
    · exact Or.inl hr.symm
    · rw [if_neg hr] at h
      exact Or.inr ⟨rd, h⟩
  | some room =>
    by_cases hfull : MAX_USERS_PER_ROOM ≤ room.users.length
    · rw [joinRoom_full st sid roomId room hg hfull] at h
      exact Or.inr ⟨rd, h⟩
    · rw [joinRoom_accept st sid roomId room hg (Nat.not_le.mp hfull)] at h
      simp only at h
      rw [mapGet_mapSet] at h
      by_cases hr : roomId = r
      · exact Or.inl hr.symm
      · rw [if_neg hr] at h
        exact Or.inr ⟨rd, h⟩

theorem registerPeerId_keys (st : Rooms) (sid roomId peerId r : String) (rd : RoomData)
    (h : mapGet (registerPeerId st sid roomId peerId).1 r = some rd) :
    ∃ rd0, mapGet st r = some rd0 := by
  cases hg : mapGet st roomId with
  | none =>
    rw [registerPeerId_none st sid roomId peerId hg] at h
    exact ⟨rd, h⟩
  | some room =>
    rw [registerPeerId_some st sid roomId peerId room hg] at h
    have hg1 : mapGet (mapSet st roomId { room with peerIds := mapSet room.peerIds sid peerId })
        roomId = some { room with peerIds := mapSet room.peerIds sid peerId } := by
      rw [mapGet_mapSet, if_pos rfl]
    obtain ⟨sent, hshape⟩ := exchangePeerIds_shape _ sid roomId peerId _ hg1
    rw [hshape, mapSet_mapSet, mapGet_mapSet] at h
    by_cases hr : roomId = r
    · exact ⟨room, hr ▸ hg⟩
    · rw [if_neg hr] at h
      exact ⟨rd, h⟩

theorem handleDisconnect_keys (st : Rooms) (sid roomId r : String) (rd : RoomData)
    (h : mapGet (handleDisconnect st sid roomId).1 r = some rd) :
    ∃ rd0, mapGet st r = some rd0 := by
  cases hg : mapGet st roomId with
  | none =>
    rw [handleDisconnect_none st sid roomId hg] at h
    exact ⟨rd, h⟩
  | some room =>
    rw [handleDisconnect_some st sid roomId room hg] at h
    simp only at h
    split at h
    · rw [mapGet_mapDelete] at h
      by_cases hr : roomId = r
      · rw [if_pos hr] at h
        cases h
      · rw [if_neg hr] at h
        exact ⟨rd, h⟩
    · rw [mapGet_mapSet] at h
      by_cases hr : roomId = r
      · exact ⟨room, hr ▸ hg⟩
      · rw [if_neg hr] at h
        exact ⟨rd, h⟩

-- ============ SERVER INVARIANT PRESERVATION ============

theorem serverInv_start : ServerInv serverStart := by
  constructor
  · intro r rd h
    simp [serverStart, mapGet] at h
  · intro r rd h
    simp [serverStart, mapGet] at h

theorem serverInv_step (st : ServerState) (ev : SEvent) (h : ServerInv st) :
    ServerInv (serverStep st ev).1 := by
  obtain ⟨hreg, hkey⟩ := h
  cases ev with
  | connect sid =>
    constructor
    · exact registryInv_joinRoom st.rooms sid DEFAULT_ROOM hreg
    · intro r rd hget
      rcases joinRoom_keys st.rooms sid DEFAULT_ROOM r rd hget with h1 | ⟨rd0, h0⟩
      · exact h1
      · exact hkey r rd0 h0
  | register sid peerId =>
    simp only [serverStep]
    split
    · constructor
      · exact registryInv_registerPeerId st.rooms sid DEFAULT_ROOM peerId hreg
      · intro r rd hget
        obtain ⟨rd0, h0⟩ := registerPeerId_keys st.rooms sid DEFAULT_ROOM peerId r rd hget
        exact hkey r rd0 h0
    · exact ⟨hreg, hkey⟩
  | media sid isAudio enabled peerId =>
    simp only [serverStep]
    split
    · exact ⟨hreg, hkey⟩
    · exact ⟨hreg, hkey⟩
  | disconnect sid =>
    simp only [serverStep]
    split
    · constructor
      · exact registryInv_handleDisconnect st.rooms sid DEFAULT_ROOM hreg
      · intro r rd hget
        obtain ⟨rd0, h0⟩ := handleDisconnect_keys st.rooms sid DEFAULT_ROOM r rd hget
        exact hkey r rd0 h0
    · exact ⟨hreg, hkey⟩

theorem serverInv_runServer (evs : List SEvent) : ∀ st : ServerState, ServerInv st →
    ServerInv (runServer st evs).1 := by
  induction evs with
  | nil => intro st h; exact h
  | cons ev rest ih =>
    intro st h
    exact ih (serverStep st ev).1 (serverInv_step st ev h)

-- ============ CLAIM THEOREMS ============

/-- C1: the spec demands that for every sequence of join/announce/leave
events on a single room key no member ever receives `remotePeerId` for the
same ordered direction (sender, receiver) more than once, even when
`announce` is repeated with the same identifier.  The code violates this:
after `A` and `B` join room `r`, `A` announces `pA`, `B` announces `pB`
(completing the exchange), a repeated announce of `pB` by `B` delivers
`pB` to `A` a second time — the direction (B, A) is delivered twice,
because the guard for that direction reads `peerIdsSent.get(A)` while the
completed exchange only ever marked `peerIdsSent.get(B)`. -/
theorem c1_duplicate_direction :
    deliveries (runOps [] [Op.join sidA roomR, Op.join sidB roomR,
      Op.announce sidA roomR pidA, Op.announce sidB roomR pidB,
      Op.announce sidB roomR pidB]).2 sidB sidA = [pidB, pidB] := by
  rfl

/-- C5: the spec demands that a re-announce after a completed exchange
produces no delivery for a direction already satisfied.  The code violates
this: `A` joins and announces `pA` alone, `B` joins and announces `pB`
(which completes both directions of the exchange), and then `A`
re-announces `pA`: the direction (B, A) is delivered a second time — `A`
receives `pB` again — while direction (A, B) is correctly deduplicated. -/
theorem c5_reannounce_duplicate :
    deliveries (runOps [] [Op.join sidA roomR, Op.announce sidA roomR pidA,
      Op.join sidB roomR, Op.announce sidB roomR pidB,
      Op.announce sidA roomR pidA]).2 sidB sidA = [pidB, pidB]
    ∧ deliveries (runOps [] [Op.join sidA roomR, Op.announce sidA roomR pidA,
      Op.join sidB roomR, Op.announce sidB roomR pidB,
      Op.announce sidA roomR pidA]).2 sidA sidB = [pidA] := by
  constructor <;> rfl

/-- C3: a join attempt on a room already holding two members returns the
rejected flag, leaves the entire registry unchanged, and emits exactly one
`roomFull` notification to the caller immediately followed by its forced
disconnection. -/
theorem c3_join_full_rejected (st : Rooms) (sid roomId : String) (room : RoomData)
    (hg : mapGet st roomId = some room) (hfull : room.users.length = 2) :
    joinRoom st sid roomId
      = (st, false, [Msg.roomFull sid ROOM_FULL_REASON, Msg.forceDisconnect sid]) :=
  joinRoom_full st sid roomId room hg (by rw [hfull, MAX_USERS_PER_ROOM])

/-- Witness for C3 at the concrete registry `stFull` (room `r` held by
`A` and `B`) and joiner `C`. -/
theorem c3_join_full_rejected_witness :
    joinRoom stFull sidC roomR
      = (stFull, false, [Msg.roomFull sidC ROOM_FULL_REASON, Msg.forceDisconnect sidC]) :=
  c3_join_full_rejected stFull sidC roomR (RoomData.mk [sidA, sidB] [] []) (by rfl) (by rfl)

/-- C4: in every state reachable from the empty registry by any sequence
of join, announce and leave operations, every registered room holds at
most two members. -/
theorem c4_room_capacity (ops : List Op) (r : String) (rd : RoomData)
    (h : mapGet (runOps [] ops).1 r = some rd) : rd.users.length ≤ 2 :=
  ((registryInv_runOps ops [] registryInv_nil) r rd h).1

/-- Witness for C4 on the one-join trace. -/
theorem c4_room_capacity_witness : (RoomData.mk [sidA] [] []).users.length ≤ 2 :=
  c4_room_capacity [Op.join sidA roomR] roomR (RoomData.mk [sidA] [] []) (by rfl)

/-- C2: for two distinct members `a` and `b` of a room `r`, once each has
announced its identifier exactly once — in either order of announcement,
whether `b` joins before or after the first announce — each direction has
received exactly one `remotePeerId` delivery, carrying the other member's
identifier: direction (a, b) delivered `[pa]` and direction (b, a)
delivered `[pb]`, never zero and never more than one. -/
theorem c2_exchange_exactly_once (a b pa pb r : String) (hab : a ≠ b) :
    (deliveries (runOps [] [Op.join a r, Op.join b r,
        Op.announce a r pa, Op.announce b r pb]).2 a b = [pa]
      ∧ deliveries (runOps [] [Op.join a r, Op.join b r,
        Op.announce a r pa, Op.announce b r pb]).2 b a = [pb])
    ∧ (deliveries (runOps [] [Op.join a r, Op.join b r,
        Op.announce b r pb, Op.announce a r pa]).2 a b = [pa]
      ∧ deliveries (runOps [] [Op.join a r, Op.join b r,
        Op.announce b r pb, Op.announce a r pa]).2 b a = [pb])
    ∧ (deliveries (runOps [] [Op.join a r, Op.announce a r pa,
        Op.join b r, Op.announce b r pb]).2 a b = [pa]
      ∧ deliveries (runOps [] [Op.join a r, Op.announce a r pa,
        Op.join b r, Op.announce b r pb]).2 b a = [pb]) := by
  refine ⟨⟨?_, ?_⟩, ⟨?_, ?_⟩, ⟨?_, ?_⟩⟩ <;>
    simp [runOps, runOp, joinRoom, getOrCreateRoom, registerPeerId, exchangePeerIds,
      exchangeStep, exchangeLoop, mapGet, mapSet, setAdd, setHas, removeAll,
      MAX_USERS_PER_ROOM, userCountMsgs, deliveries, hab, Ne.symm hab]

/-- Witness for C2 at `a = A`, `b = B`, identifiers `pA`, `pB`, room `r`:
the first trace's direction (A, B) delivered exactly `[pA]`. -/
theorem c2_exchange_exactly_once_witness :
    deliveries (runOps [] [Op.join sidA roomR, Op.join sidB roomR,
      Op.announce sidA roomR pidA, Op.announce sidB roomR pidB]).2 sidA sidB = [pidA] :=
  (c2_exchange_exactly_once sidA sidB pidA pidB roomR (by decide)).1.1

/-- C6: in every state reachable from the empty registry by any sequence
of join, announce and leave operations, a room key is present in the
registry exactly when its member count is non-zero: rooms are created on
first join and deleted the moment their last member leaves. -/
theorem c6_room_iff_nonempty (ops : List Op) (r : String) :
    (mapGet (runOps [] ops).1 r).isSome = true
      ↔ getRoomUserCount (runOps [] ops).1 r ≠ 0 := by
  have hinv := registryInv_runOps ops [] registryInv_nil
  unfold getRoomUserCount
  cases hg : mapGet (runOps [] ops).1 r with
  | none => simp
  | some rd =>
    have hne := (hinv r rd hg).2
    simp only [Option.isSome_some, true_iff, ne_eq]
    intro hlen
    exact hne (List.length_eq_zero.mp hlen)

/-- C7: after a leave removes a member, the room that remains (when it
remains) holds no announced identifier and no sent-to set for the departed
connection, and the departed identifier appears in no remaining member's
sent-to bookkeeping. -/
theorem c7_leave_cleanup (st : Rooms) (sid roomId : String) (rd : RoomData)
    (h : mapGet (handleDisconnect st sid roomId).1 roomId = some rd) :
    mapGet rd.peerIds sid = none ∧ mapGet rd.peerIdsSent sid = none
      ∧ ∀ k s, mapGet rd.peerIdsSent k = some s → sid ∉ s := by
  cases hg : mapGet st roomId with
  | none =>
    rw [handleDisconnect_none st sid roomId hg] at h
    simp only at h
    rw [hg] at h
    cases h
  | some room =>
    rw [handleDisconnect_some st sid roomId room hg] at h
    simp only at h
    split at h
    · rw [mapGet_mapDelete, if_pos rfl] at h
      cases h
    · rw [mapGet_mapSet, if_pos rfl] at h
      injection h with h
      subst h
      refine ⟨?_, ?_, ?_⟩
      · show mapGet (mapDelete room.peerIds sid) sid = none
        rw [mapGet_mapDelete, if_pos rfl]
      · show mapGet (purgeAll (mapDelete room.peerIdsSent sid) sid) sid = none
        rw [mapGet_purgeAll, mapGet_mapDelete, if_pos rfl]
        rfl
      · intro k s hs
        rw [mapGet_purgeAll] at hs
        cases hm : mapGet (mapDelete room.peerIdsSent sid) k with
        | none => rw [hm] at hs; cases hs
        | some s0 =>
          rw [hm] at hs
          have heq : removeAll s0 sid = s := by simpa using hs
          rw [← heq]
          exact not_mem_removeAll s0 sid

/-- Witness for C7 on the completed-exchange registry `stExchanged` with
`A` leaving: the surviving room keeps no record of `A`. -/
theorem c7_leave_cleanup_witness :
    mapGet (RoomData.mk [sidB] [(sidB, pidB)] [(sidB, [])]).peerIds sidA = none
    ∧ mapGet (RoomData.mk [sidB] [(sidB, pidB)] [(sidB, [])]).peerIdsSent sidA = none :=
  ⟨(c7_leave_cleanup stExchanged sidA roomR
      (RoomData.mk [sidB] [(sidB, pidB)] [(sidB, [])]) (by rfl)).1,
    (c7_leave_cleanup stExchanged sidA roomR
      (RoomData.mk [sidB] [(sidB, pidB)] [(sidB, [])]) (by rfl)).2.1⟩

/-- C8 counterexample: the claim says a leave for a connection not present
in the room surfaces no notification to any client, but when room `r`
holds only `A` and the absent connection `B` leaves, the code still emits
`userDisconnected` and `userCount` to the remaining member `A`. -/
theorem c8_leave_absent_notifies :
    (handleDisconnect (runOps [] [Op.join sidA roomR]).1 sidB roomR).2
      = [Msg.userDisconnected sidA sidB, Msg.userCount sidA 1]
    ∧ (handleDisconnect (runOps [] [Op.join sidA roomR]).1 sidB roomR).2 ≠ [] := by
  constructor
  · rfl
  · decide

/-- C8 (amended): an announce or leave for a room key with no registry
entry is a complete no-op (state unchanged, no notification); a leave for
a connection not present in an existing room (with no stale records of it,
as in every server-reachable state) leaves the registry unchanged and
raises no error, but the remaining members do still receive
`userDisconnected` and `userCount` notifications. -/
theorem c8_silent_noop (st : Rooms) (sid roomId peerId : String) :
    (mapGet st roomId = none →
      registerPeerId st sid roomId peerId = (st, [])
      ∧ handleDisconnect st sid roomId = (st, []))
    ∧ (∀ room : RoomData, mapGet st roomId = some room → sid ∉ room.users →
        room.users ≠ [] → mapGet room.peerIds sid = none →
        mapGet room.peerIdsSent sid = none → (∀ p ∈ room.peerIdsSent, sid ∉ p.2) →
        handleDisconnect st sid roomId
          = (st, userDiscMsgs room.users sid
              ++ userCountMsgs room.users room.users.length)) := by
  constructor
  · intro hg
    exact ⟨registerPeerId_none st sid roomId peerId hg,
      handleDisconnect_none st sid roomId hg⟩
  · intro room hg hmem hne hpid hsent hrefs
    rw [handleDisconnect_some st sid roomId room hg]
    have husers : removeAll room.users sid = room.users :=
      removeAll_of_not_mem room.users sid hmem
    rw [husers]
    have hlen : ¬ room.users.length = 0 := fun h0 => hne (List.length_eq_zero.mp h0)
    rw [if_neg hlen]
    have hpd : mapDelete room.peerIds sid = room.peerIds := mapDelete_of_get_none _ _ hpid
    have hsd : mapDelete room.peerIdsSent sid = room.peerIdsSent :=
      mapDelete_of_get_none _ _ hsent
    rw [hpd, hsd, purgeAll_of_not_mem room.peerIdsSent sid hrefs]
    rw [show (⟨room.users, room.peerIds, room.peerIdsSent⟩ : RoomData) = room from rfl]
    rw [mapSet_of_get_some st roomId room hg]

/-- Witness for C8 (amended) on the solo registry: absent `B` leaves room
`r` held by `A` alone; the registry is unchanged and the notifications go
to `A`. -/
theorem c8_silent_noop_witness :
    handleDisconnect stSolo sidB roomR
      = (stSolo, userDiscMsgs [sidA] sidB ++ userCountMsgs [sidA] 1) :=
  (c8_silent_noop stSolo sidB roomR pidB).2 (RoomData.mk [sidA] [] [])
    (by rfl) (by decide) (by decide) (by rfl) (by rfl) (by decide)

/-- C9: when the sole member of a room leaves, the registry equals the one
with the room key deleted (so the key is absent and `memberCount` is 0),
and a fresh join with the same key is accepted into a brand-new room
exactly as if the room had never existed. -/
theorem c9_last_leave_resets (st : Rooms) (sid roomId newSid : String) (room : RoomData)
    (hg : mapGet st roomId = some room) (husers : room.users = [sid]) :
    (handleDisconnect st sid roomId).1 = mapDelete st roomId
    ∧ mapGet (handleDisconnect st sid roomId).1 roomId = none
    ∧ getRoomUserCount (handleDisconnect st sid roomId).1 roomId = 0
    ∧ (joinRoom (mapDelete st roomId) newSid roomId).2.1 = true
    ∧ mapGet (joinRoom (mapDelete st roomId) newSid roomId).1 roomId
        = some { users := [newSid], peerIds := [], peerIdsSent := [] }
    ∧ (joinRoom (mapDelete st roomId) newSid roomId).2.2 = [Msg.userCount newSid 1] := by
  have hrm : removeAll room.users sid = [] := by
    rw [husers]
    simp [removeAll]
  have h1 : (handleDisconnect st sid roomId).1 = mapDelete st roomId := by
    rw [handleDisconnect_some st sid roomId room hg]
    simp only
    rw [hrm]
    simp
  have hd : mapGet (mapDelete st roomId) roomId = none := by
    rw [mapGet_mapDelete, if_pos rfl]
  have hj := joinRoom_none (mapDelete st roomId) newSid roomId hd
  refine ⟨h1, ?_, ?_, ?_, ?_, ?_⟩
  · rw [h1]
    exact hd
  · rw [h1]
    simp [getRoomUserCount, hd]
  · rw [hj]
  · rw [hj]
    rw [mapGet_mapSet, if_pos rfl]
  · rw [hj]

/-- Witness for C9: `A` leaves the solo room `r`, then `B` joins it. -/
theorem c9_last_leave_resets_witness :
    (handleDisconnect stSolo sidA roomR).1 = mapDelete stSolo roomR
    ∧ mapGet (handleDisconnect stSolo sidA roomR).1 roomR = none
    ∧ getRoomUserCount (handleDisconnect stSolo sidA roomR).1 roomR = 0
    ∧ (joinRoom (mapDelete stSolo roomR) sidB roomR).2.1 = true
    ∧ mapGet (joinRoom (mapDelete stSolo roomR) sidB roomR).1 roomR
        = some { users := [sidB], peerIds := [], peerIdsSent := [] }
    ∧ (joinRoom (mapDelete stSolo roomR) sidB roomR).2.2 = [Msg.userCount sidB 1] :=
  c9_last_leave_resets stSolo sidA roomR sidB (RoomData.mk [sidA] [] []) (by rfl) (by rfl)

/-- C10: the room key is chosen by the server, never by the client (no
transport event carries a room key), and in every state reachable from
process start by any sequence of transport events, every registered room
is the fixed `DEFAULT_ROOM` ("main-room") with at most two members — so at
most two connections server-wide hold membership. -/
theorem c10_single_default_room (evs : List SEvent) (r : String) (rd : RoomData)
    (h : mapGet (runServer serverStart evs).1.rooms r = some rd) :
    r = DEFAULT_ROOM ∧ rd.users.length ≤ 2 := by
  have hinv := serverInv_runServer evs serverStart serverInv_start
  exact ⟨hinv.2 r rd h, (hinv.1 r rd h).1⟩

/-- Witness for C10 after a single connection. -/
theorem c10_single_default_room_witness :
    DEFAULT_ROOM = DEFAULT_ROOM ∧ (RoomData.mk [sidA] [] []).users.length ≤ 2 :=
  c10_single_default_room [SEvent.connect sidA] DEFAULT_ROOM
    (RoomData.mk [sidA] [] []) (by rfl)
